import Mathlib

/-!
Verification of the virtual portfolio ledger of the Crypto-app repository.

The repository contains two inlined implementations of the ledger:
* `executeTrade` (source file `part_001`), operating on
  `portfolio = { balance: 10000, holdings: {} }` plus a `transactions` array;
* `confirmTrade` (source file `app.js`), operating on
  `state.portfolio = { balance: 100000, holdings: {} }` plus `state.transactions`.

JavaScript numbers are modelled as exact rationals (`ℚ`); JavaScript objects
used as string-keyed maps are modelled as association lists with unique keys,
with `setKey`/`eraseKey`/`lookupKey` mirroring property assignment, `delete`,
and property access.  `Array.prototype.unshift` is list cons.
-/

namespace CryptoApp

abbrev AssetId := String

/-- A market-data row as consumed by the trade functions: both implementations
read `id`, `name`, `symbol` and `current_price` from the selected coin. -/
structure Coin where
  id : AssetId
  name : String
  symbol : String
  current_price : ℚ
  deriving Repr, DecidableEq

inductive TradeType
  | buy
  | sell
  deriving Repr, DecidableEq

/-- The three rejection messages of `executeTrade` / `confirmTrade`:
`'Please enter a valid amount'` / `'Enter a valid amount'`,
`'Insufficient balance!'` / `'Insufficient balance'`, and
`'Insufficient holdings!'` / `'Not enough holdings'`.  Both implementations
use one combined holdings error for a missing holding and for an oversized
sell. -/
inductive TradeError
  | invalidAmount
  | insufficientBalance
  | insufficientHoldings
  deriving Repr, DecidableEq

inductive TradeOutcome
  | success
  | failure (e : TradeError)
  deriving Repr, DecidableEq

/-- A transaction record as pushed by `transactions.unshift({...})`; the
`date` field (wall-clock time) is not modelled. -/
structure Tx where
  type : TradeType
  coin : String
  symbol : String
  amount : ℚ
  price : ℚ
  total : ℚ
  deriving Repr, DecidableEq

/-- Property read `obj[k]` on a JS object modelled as an association list. -/
def lookupKey (k : AssetId) : List (AssetId × α) → Option α
  | [] => none
  | (k', v) :: rest => if k' = k then some v else lookupKey k rest

/-- Property write `obj[k] = v`: overwrite the entry if the key is present,
append it otherwise. -/
def setKey (k : AssetId) (v : α) : List (AssetId × α) → List (AssetId × α)
  | [] => [(k, v)]
  | (k', v') :: rest => if k' = k then (k, v) :: rest else (k', v') :: setKey k v rest

/-- `delete obj[k]`: remove the entry for `k`. -/
def eraseKey (k : AssetId) : List (AssetId × α) → List (AssetId × α)
  | [] => []
  | (k', v') :: rest => if k' = k then rest else (k', v') :: eraseKey k rest

/-! ## The `part_001` implementation -/

/-- A holding as created by `executeTrade`'s buy branch:
`{ amount: 0, totalCost: 0, coin: currentCoin.name, symbol: currentCoin.symbol }`. -/
structure Holding001 where
  amount : ℚ
  totalCost : ℚ
  coin : String
  symbol : String
  deriving Repr, DecidableEq

/-- The `part_001` module state: `portfolio.balance`, `portfolio.holdings`,
and the `transactions` array. -/
structure State001 where
  balance : ℚ
  holdings : List (AssetId × Holding001)
  transactions : List Tx
  deriving Repr, DecidableEq

/-- `let portfolio = { balance: 10000, holdings: {} }; let transactions = [];` -/
def init001 : State001 := ⟨10000, [], []⟩

/-- `executeTrade` from `part_001`, with the selected coin, the trade type and
the parsed amount passed explicitly (in the source they are read from module
state and the DOM).  A non-numeric or non-positive amount is rejected first
(`!amount || amount <= 0`); the buy branch rejects when
`totalCost > portfolio.balance`, the sell branch when
`!holding || holding.amount < amount`.  On the sell path the source decrements
`holding.amount` first and then subtracts
`(holding.totalCost / (holding.amount + amount)) * amount` from
`holding.totalCost`, and deletes the holding when `holding.amount === 0`. -/
def executeTrade (coin : Coin) (tradeType : TradeType) (amount : ℚ)
    (s : State001) : TradeOutcome × State001 :=
  if amount ≤ 0 then (.failure .invalidAmount, s)
  else
    let totalCost := amount * coin.current_price
    match tradeType with
    | .buy =>
        if s.balance < totalCost then (.failure .insufficientBalance, s)
        else
          let h0 := (lookupKey coin.id s.holdings).getD ⟨0, 0, coin.name, coin.symbol⟩
          let h1 : Holding001 :=
            ⟨h0.amount + amount, h0.totalCost + totalCost, h0.coin, h0.symbol⟩
          (.success,
            { balance := s.balance - totalCost
              holdings := setKey coin.id h1 s.holdings
              transactions :=
                ⟨.buy, coin.name, coin.symbol, amount, coin.current_price, totalCost⟩
                  :: s.transactions })
    | .sell =>
        match lookupKey coin.id s.holdings with
        | none => (.failure .insufficientHoldings, s)
        | some h =>
            if h.amount < amount then (.failure .insufficientHoldings, s)
            else
              let amt1 := h.amount - amount
              let cost1 := h.totalCost - (h.totalCost / (amt1 + amount)) * amount
              let holdings1 :=
                if amt1 = 0 then eraseKey coin.id s.holdings
                else setKey coin.id ⟨amt1, cost1, h.coin, h.symbol⟩ s.holdings
              (.success,
                { balance := s.balance + totalCost
                  holdings := holdings1
                  transactions :=
                    ⟨.sell, coin.name, coin.symbol, amount, coin.current_price, totalCost⟩
                      :: s.transactions })

/-! ## The `app.js` implementation -/

/-- A holding as created by `confirmTrade`'s buy branch:
`{ amount: 0, totalCost: 0 }`. -/
structure HoldingApp where
  amount : ℚ
  totalCost : ℚ
  deriving Repr, DecidableEq

/-- The `app.js` state slice touched by trades: `state.portfolio.balance`,
`state.portfolio.holdings`, `state.transactions`. -/
structure StateApp where
  balance : ℚ
  holdings : List (AssetId × HoldingApp)
  transactions : List Tx
  deriving Repr, DecidableEq

/-- `portfolio: { balance: 100000, holdings: {} }, transactions: []`. -/
def initApp : StateApp := ⟨100000, [], []⟩

/-- `confirmTrade(coin, type)` from `app.js` with the parsed amount passed
explicitly.  Differences from `executeTrade`: the sell branch computes the
average cost `h.totalCost / h.amount` before decrementing `h.amount`, and the
holding is deleted when `h.amount <= 0`. -/
def confirmTrade (coin : Coin) (tradeType : TradeType) (amount : ℚ)
    (s : StateApp) : TradeOutcome × StateApp :=
  if amount ≤ 0 then (.failure .invalidAmount, s)
  else
    let total := amount * coin.current_price
    match tradeType with
    | .buy =>
        if s.balance < total then (.failure .insufficientBalance, s)
        else
          let h0 := (lookupKey coin.id s.holdings).getD ⟨0, 0⟩
          let h1 : HoldingApp := ⟨h0.amount + amount, h0.totalCost + total⟩
          (.success,
            { balance := s.balance - total
              holdings := setKey coin.id h1 s.holdings
              transactions :=
                ⟨.buy, coin.name, coin.symbol, amount, coin.current_price, total⟩
                  :: s.transactions })
    | .sell =>
        match lookupKey coin.id s.holdings with
        | none => (.failure .insufficientHoldings, s)
        | some h =>
            if h.amount < amount then (.failure .insufficientHoldings, s)
            else
              let avg := h.totalCost / h.amount
              let cost1 := h.totalCost - avg * amount
              let amt1 := h.amount - amount
              let holdings1 :=
                if amt1 ≤ 0 then eraseKey coin.id s.holdings
                else setKey coin.id ⟨amt1, cost1⟩ s.holdings
              (.success,
                { balance := s.balance + total
                  holdings := holdings1
                  transactions :=
                    ⟨.sell, coin.name, coin.symbol, amount, coin.current_price, total⟩
                      :: s.transactions })

/-! ## Concrete coins for the worked example -/

/-- The example asset quoted at unit price 100. -/
def coinAt (p : ℚ) : Coin := ⟨"bitcoin", "Bitcoin", "btc", p⟩

/-- After `buy 2 @ 100` and `buy 3 @ 200` from the initial `part_001` state. -/
def ex001afterBuys : State001 :=
  (executeTrade (coinAt 200) .buy 3 (executeTrade (coinAt 100) .buy 2 init001).2).2

/-- The subsequent `sell 2 @ 150` in the `part_001` implementation. -/
def ex001sell : TradeOutcome × State001 := executeTrade (coinAt 150) .sell 2 ex001afterBuys

/-- After `buy 2 @ 100` and `buy 3 @ 200` from the initial `app.js` state. -/
def exAppAfterBuys : StateApp :=
  (confirmTrade (coinAt 200) .buy 3 (confirmTrade (coinAt 100) .buy 2 initApp).2).2

/-- The subsequent `sell 2 @ 150` in the `app.js` implementation. -/
def exAppSell : TradeOutcome × StateApp := confirmTrade (coinAt 150) .sell 2 exAppAfterBuys

/-- C1: average-cost accounting on the spec's worked example, checked on both
implementations.  Buying 2 units at 100 and then 3 units at 200 yields a
holding with quantity 5 and cost basis 800; selling 2 units at 150 removes
(800/5)·2 = 320 of cost, leaving quantity 3 and cost basis 480, and raises the
cash balance by exactly 300 (9200 → 9500 from the 10000 start of `part_001`,
99200 → 99500 from the 100000 start of `app.js`). -/
theorem average_cost_worked_example :
    lookupKey "bitcoin" ex001afterBuys.holdings = some ⟨5, 800, "Bitcoin", "btc"⟩ ∧
    ex001afterBuys.balance = 9200 ∧
    ex001sell.1 = .success ∧
    lookupKey "bitcoin" ex001sell.2.holdings = some ⟨3, 480, "Bitcoin", "btc"⟩ ∧
    ex001sell.2.balance = 9500 ∧
    lookupKey "bitcoin" exAppAfterBuys.holdings = some ⟨5, 800⟩ ∧
    exAppAfterBuys.balance = 99200 ∧
    exAppSell.1 = .success ∧
    lookupKey "bitcoin" exAppSell.2.holdings = some ⟨3, 480⟩ ∧
    exAppSell.2.balance = 99500 := by
  norm_num [ex001afterBuys, ex001sell, exAppAfterBuys, exAppSell, executeTrade, confirmTrade,
    init001, initApp, coinAt, lookupKey, setKey, eraseKey]

/-! ## Association-list lemmas -/

theorem lookupKey_setKey_self (k : AssetId) (v : α) (l : List (AssetId × α)) :
    lookupKey k (setKey k v l) = some v := by
  induction l with
  | nil => simp [setKey, lookupKey]
  | cons p rest ih =>
      by_cases h : p.1 = k <;> simp [setKey, lookupKey, h, ih]

theorem lookupKey_mem {k : AssetId} {v : α} {l : List (AssetId × α)}
    (h : lookupKey k l = some v) : (k, v) ∈ l := by
  induction l with
  | nil => simp [lookupKey] at h
  | cons p rest ih =>
      obtain ⟨pk, pv⟩ := p
      by_cases hk : pk = k
      · simp [lookupKey, hk] at h
        subst hk
        subst h
        exact .head _
      · simp [lookupKey, hk] at h
        exact .tail _ (ih h)

theorem mem_setKey {k : AssetId} {v : α} {l : List (AssetId × α)} {p : AssetId × α}
    (h : p ∈ setKey k v l) : p = (k, v) ∨ p ∈ l := by
  induction l with
  | nil => simpa [setKey] using h
  | cons q rest ih =>
      by_cases hk : q.1 = k
      · simp [setKey, hk] at h
        rcases h with h | h
        · exact .inl h
        · exact .inr (.tail _ h)
      · simp [setKey, hk] at h
        rcases h with h | h
        · exact .inr (by simp [h])
        · rcases ih h with h' | h'
          · exact .inl h'
          · exact .inr (.tail _ h')

theorem mem_eraseKey {k : AssetId} {l : List (AssetId × α)} {p : AssetId × α}
    (h : p ∈ eraseKey k l) : p ∈ l := by
  induction l with
  | nil => simp [eraseKey] at h
  | cons q rest ih =>
      by_cases hk : q.1 = k
      · simp [eraseKey, hk] at h
        exact .tail _ h
      · simp [eraseKey, hk] at h
        rcases h with h | h
        · simp [h]
        · exact .tail _ (ih h)

/-- JS object keys are unique; this is the representation invariant of the
association lists standing in for `portfolio.holdings`. -/
def KeysNodup (l : List (AssetId × α)) : Prop := (l.map Prod.fst).Nodup

theorem lookupKey_eq_none_of_not_mem {k : AssetId} {l : List (AssetId × α)}
    (h : k ∉ l.map Prod.fst) : lookupKey k l = none := by
  induction l with
  | nil => simp [lookupKey]
  | cons p rest ih =>
      simp only [List.map_cons, List.mem_cons] at h
      push_neg at h
      have hne : ¬ p.1 = k := fun hh => h.1 hh.symm
      simp [lookupKey, hne, ih h.2]

theorem lookupKey_eraseKey_self {k : AssetId} {l : List (AssetId × α)}
    (hw : KeysNodup l) : lookupKey k (eraseKey k l) = none := by
  induction l with
  | nil => simp [eraseKey, lookupKey]
  | cons p rest ih =>
      rw [KeysNodup, List.map_cons, List.nodup_cons] at hw
      by_cases hk : p.1 = k
      · simp only [eraseKey, hk, if_pos rfl]
        exact lookupKey_eq_none_of_not_mem (hk ▸ hw.1)
      · simp [eraseKey, lookupKey, hk, ih hw.2]

/-- Sum of a numeric field over all values of an association list. -/
def sumBy (f : β → ℚ) (l : List (AssetId × β)) : ℚ := (l.map (fun p => f p.2)).sum

theorem sumBy_setKey_some {k : AssetId} {v : β} {l : List (AssetId × β)}
    (f : β → ℚ) (w : β) (h : lookupKey k l = some v) :
    sumBy f (setKey k w l) = sumBy f l - f v + f w := by
  induction l with
  | nil => simp [lookupKey] at h
  | cons p rest ih =>
      by_cases hk : p.1 = k
      · simp only [lookupKey, if_pos hk] at h
        obtain rfl : p.2 = v := Option.some_injective _ h
        simp [setKey, hk, sumBy]
        ring
      · simp only [lookupKey, if_neg hk] at h
        simp only [setKey, if_neg hk, sumBy, List.map_cons, List.sum_cons]
        rw [show (List.map (fun p => f p.2) (setKey k w rest)).sum = sumBy f (setKey k w rest) from rfl,
          ih h]
        simp [sumBy]
        ring

theorem sumBy_setKey_none {k : AssetId} {l : List (AssetId × β)}
    (f : β → ℚ) (w : β) (h : lookupKey k l = none) :
    sumBy f (setKey k w l) = sumBy f l + f w := by
  induction l with
  | nil => simp [setKey, sumBy]
  | cons p rest ih =>
      by_cases hk : p.1 = k
      · simp [lookupKey, hk] at h
      · simp only [lookupKey, if_neg hk] at h
        simp only [setKey, if_neg hk, sumBy, List.map_cons, List.sum_cons]
        rw [show (List.map (fun p => f p.2) (setKey k w rest)).sum = sumBy f (setKey k w rest) from rfl,
          ih h]
        simp [sumBy]
        ring

theorem sumBy_eraseKey_some {k : AssetId} {v : β} {l : List (AssetId × β)}
    (f : β → ℚ) (h : lookupKey k l = some v) :
    sumBy f (eraseKey k l) = sumBy f l - f v := by
  induction l with
  | nil => simp [lookupKey] at h
  | cons p rest ih =>
      by_cases hk : p.1 = k
      · simp only [lookupKey, if_pos hk] at h
        obtain rfl : p.2 = v := Option.some_injective _ h
        simp [eraseKey, hk, sumBy]
      · simp only [lookupKey, if_neg hk] at h
        simp only [eraseKey, if_neg hk, sumBy, List.map_cons, List.sum_cons]
        rw [show (List.map (fun p => f p.2) (eraseKey k rest)).sum = sumBy f (eraseKey k rest) from rfl,
          ih h]
        simp [sumBy]
        ring

/-! ## Branch evaluation lemmas for `executeTrade` -/

theorem executeTrade_invalid (c : Coin) (t : TradeType) (a : ℚ) (s : State001)
    (ha : a ≤ 0) : executeTrade c t a s = (.failure .invalidAmount, s) := by
  simp [executeTrade, ha]

theorem executeTrade_buy_insufficient (c : Coin) (a : ℚ) (s : State001)
    (ha : ¬ a ≤ 0) (hb : s.balance < a * c.current_price) :
    executeTrade c .buy a s = (.failure .insufficientBalance, s) := by
  simp [executeTrade, ha, hb]

theorem executeTrade_buy_success (c : Coin) (a : ℚ) (s : State001)
    (ha : ¬ a ≤ 0) (hb : ¬ s.balance < a * c.current_price) :
    executeTrade c .buy a s =
      (.success,
        { balance := s.balance - a * c.current_price
          holdings := setKey c.id
            ⟨((lookupKey c.id s.holdings).getD ⟨0, 0, c.name, c.symbol⟩).amount + a,
             ((lookupKey c.id s.holdings).getD ⟨0, 0, c.name, c.symbol⟩).totalCost
               + a * c.current_price,
             ((lookupKey c.id s.holdings).getD ⟨0, 0, c.name, c.symbol⟩).coin,
             ((lookupKey c.id s.holdings).getD ⟨0, 0, c.name, c.symbol⟩).symbol⟩ s.holdings
          transactions :=
            ⟨.buy, c.name, c.symbol, a, c.current_price, a * c.current_price⟩
              :: s.transactions }) := by
  simp [executeTrade, ha, hb]

theorem executeTrade_sell_missing (c : Coin) (a : ℚ) (s : State001)
    (ha : ¬ a ≤ 0) (hl : lookupKey c.id s.holdings = none) :
    executeTrade c .sell a s = (.failure .insufficientHoldings, s) := by
  simp [executeTrade, ha, hl]

theorem executeTrade_sell_short (c : Coin) (a : ℚ) (s : State001) (h : Holding001)
    (ha : ¬ a ≤ 0) (hl : lookupKey c.id s.holdings = some h) (hq : h.amount < a) :
    executeTrade c .sell a s = (.failure .insufficientHoldings, s) := by
  simp [executeTrade, ha, hl, hq]

theorem executeTrade_sell_success (c : Coin) (a : ℚ) (s : State001) (h : Holding001)
    (ha : ¬ a ≤ 0) (hl : lookupKey c.id s.holdings = some h) (hq : ¬ h.amount < a) :
    executeTrade c .sell a s =
      (.success,
        { balance := s.balance + a * c.current_price
          holdings :=
            if h.amount - a = 0 then eraseKey c.id s.holdings
            else setKey c.id
              ⟨h.amount - a,
               h.totalCost - (h.totalCost / ((h.amount - a) + a)) * a,
               h.coin, h.symbol⟩ s.holdings
          transactions :=
            ⟨.sell, c.name, c.symbol, a, c.current_price, a * c.current_price⟩
              :: s.transactions }) := by
  simp [executeTrade, ha, hl, hq]

/-! ## Branch evaluation lemmas for `confirmTrade` -/

theorem confirmTrade_invalid (c : Coin) (t : TradeType) (a : ℚ) (s : StateApp)
    (ha : a ≤ 0) : confirmTrade c t a s = (.failure .invalidAmount, s) := by
  simp [confirmTrade, ha]

theorem confirmTrade_buy_insufficient (c : Coin) (a : ℚ) (s : StateApp)
    (ha : ¬ a ≤ 0) (hb : s.balance < a * c.current_price) :
    confirmTrade c .buy a s = (.failure .insufficientBalance, s) := by
  simp [confirmTrade, ha, hb]

theorem confirmTrade_buy_success (c : Coin) (a : ℚ) (s : StateApp)
    (ha : ¬ a ≤ 0) (hb : ¬ s.balance < a * c.current_price) :
    confirmTrade c .buy a s =
      (.success,
        { balance := s.balance - a * c.current_price
          holdings := setKey c.id
            ⟨((lookupKey c.id s.holdings).getD ⟨0, 0⟩).amount + a,
             ((lookupKey c.id s.holdings).getD ⟨0, 0⟩).totalCost + a * c.current_price⟩
            s.holdings
          transactions :=
            ⟨.buy, c.name, c.symbol, a, c.current_price, a * c.current_price⟩
              :: s.transactions }) := by
  simp [confirmTrade, ha, hb]

theorem confirmTrade_sell_missing (c : Coin) (a : ℚ) (s : StateApp)
    (ha : ¬ a ≤ 0) (hl : lookupKey c.id s.holdings = none) :
    confirmTrade c .sell a s = (.failure .insufficientHoldings, s) := by
  simp [confirmTrade, ha, hl]

theorem confirmTrade_sell_short (c : Coin) (a : ℚ) (s : StateApp) (h : HoldingApp)
    (ha : ¬ a ≤ 0) (hl : lookupKey c.id s.holdings = some h) (hq : h.amount < a) :
    confirmTrade c .sell a s = (.failure .insufficientHoldings, s) := by
  simp [confirmTrade, ha, hl, hq]

theorem confirmTrade_sell_success (c : Coin) (a : ℚ) (s : StateApp) (h : HoldingApp)
    (ha : ¬ a ≤ 0) (hl : lookupKey c.id s.holdings = some h) (hq : ¬ h.amount < a) :
    confirmTrade c .sell a s =
      (.success,
        { balance := s.balance + a * c.current_price
          holdings :=
            if h.amount - a ≤ 0 then eraseKey c.id s.holdings
            else setKey c.id
              ⟨h.amount - a, h.totalCost - (h.totalCost / h.amount) * a⟩ s.holdings
          transactions :=
            ⟨.sell, c.name, c.symbol, a, c.current_price, a * c.current_price⟩
              :: s.transactions }) := by
  simp [confirmTrade, ha, hl, hq]

/-! ## C2: rejection atomicity -/

theorem executeTrade_state_of_failure (c : Coin) (t : TradeType) (a : ℚ) (s : State001)
    (e : TradeError) (h : (executeTrade c t a s).1 = .failure e) :
    (executeTrade c t a s).2 = s := by
  by_cases ha : a ≤ 0
  · rw [executeTrade_invalid c t a s ha]
  · cases t with
    | buy =>
        by_cases hb : s.balance < a * c.current_price
        · rw [executeTrade_buy_insufficient c a s ha hb]
        · rw [executeTrade_buy_success c a s ha hb] at h
          simp at h
    | sell =>
        cases hl : lookupKey c.id s.holdings with
        | none => rw [executeTrade_sell_missing c a s ha hl]
        | some hld =>
            by_cases hq : hld.amount < a
            · rw [executeTrade_sell_short c a s hld ha hl hq]
            · rw [executeTrade_sell_success c a s hld ha hl hq] at h
              simp at h

theorem confirmTrade_state_of_failure (c : Coin) (t : TradeType) (a : ℚ) (s : StateApp)
    (e : TradeError) (h : (confirmTrade c t a s).1 = .failure e) :
    (confirmTrade c t a s).2 = s := by
  by_cases ha : a ≤ 0
  · rw [confirmTrade_invalid c t a s ha]
  · cases t with
    | buy =>
        by_cases hb : s.balance < a * c.current_price
        · rw [confirmTrade_buy_insufficient c a s ha hb]
        · rw [confirmTrade_buy_success c a s ha hb] at h
          simp at h
    | sell =>
        cases hl : lookupKey c.id s.holdings with
        | none => rw [confirmTrade_sell_missing c a s ha hl]
        | some hld =>
            by_cases hq : hld.amount < a
            · rw [confirmTrade_sell_short c a s hld ha hl hq]
            · rw [confirmTrade_sell_success c a s hld ha hl hq] at h
              simp at h

/-- C2: rejection atomicity.  For every state and every trade request, if
`executeTrade` (`part_001`) or `confirmTrade` (`app.js`) fails — invalid
amount, insufficient funds, missing holding, or insufficient holdings — then
the returned state (cash balance, the holdings mapping and the transaction
log together) is exactly the input state: no partial mutation occurs. -/
theorem rejection_atomicity (c : Coin) (t : TradeType) (a : ℚ)
    (s : State001) (s2 : StateApp) (e e2 : TradeError) :
    ((executeTrade c t a s).1 = .failure e → (executeTrade c t a s).2 = s) ∧
    ((confirmTrade c t a s2).1 = .failure e2 → (confirmTrade c t a s2).2 = s2) :=
  ⟨executeTrade_state_of_failure c t a s e, confirmTrade_state_of_failure c t a s2 e2⟩

/-- Witness for C2: a sell against the initial (empty-holdings) states fails
and both implementations return their initial state unchanged. -/
theorem rejection_atomicity_witness :
    (executeTrade (coinAt 100) .sell 1 init001).1 = .failure .insufficientHoldings ∧
    (executeTrade (coinAt 100) .sell 1 init001).2 = init001 ∧
    (confirmTrade (coinAt 100) .sell 1 initApp).1 = .failure .insufficientHoldings ∧
    (confirmTrade (coinAt 100) .sell 1 initApp).2 = initApp := by
  have h1 : (executeTrade (coinAt 100) .sell 1 init001).1 = .failure .insufficientHoldings := by
    norm_num [executeTrade, coinAt, init001, lookupKey]
  have h2 : (confirmTrade (coinAt 100) .sell 1 initApp).1 = .failure .insufficientHoldings := by
    norm_num [confirmTrade, coinAt, initApp, lookupKey]
  refine ⟨h1, ?_, h2, ?_⟩
  · exact (rejection_atomicity (coinAt 100) .sell 1 init001 initApp
      .insufficientHoldings .insufficientHoldings).1 h1
  · exact (rejection_atomicity (coinAt 100) .sell 1 init001 initApp
      .insufficientHoldings .insufficientHoldings).2 h2

/-! ## C7: round-trip restoration -/

theorem executeTrade_balance_buy (c : Coin) (a : ℚ) (s : State001)
    (h : (executeTrade c .buy a s).1 = .success) :
    (executeTrade c .buy a s).2.balance = s.balance - a * c.current_price := by
  by_cases ha : a ≤ 0
  · rw [executeTrade_invalid c .buy a s ha] at h
    simp at h
  · by_cases hb : s.balance < a * c.current_price
    · rw [executeTrade_buy_insufficient c a s ha hb] at h
      simp at h
    · rw [executeTrade_buy_success c a s ha hb]

theorem executeTrade_balance_sell (c : Coin) (a : ℚ) (s : State001)
    (h : (executeTrade c .sell a s).1 = .success) :
    (executeTrade c .sell a s).2.balance = s.balance + a * c.current_price := by
  by_cases ha : a ≤ 0
  · rw [executeTrade_invalid c .sell a s ha] at h
    simp at h
  · cases hl : lookupKey c.id s.holdings with
    | none =>
        rw [executeTrade_sell_missing c a s ha hl] at h
        simp at h
    | some hld =>
        by_cases hq : hld.amount < a
        · rw [executeTrade_sell_short c a s hld ha hl hq] at h
          simp at h
        · rw [executeTrade_sell_success c a s hld ha hl hq]

theorem confirmTrade_balance_buy (c : Coin) (a : ℚ) (s : StateApp)
    (h : (confirmTrade c .buy a s).1 = .success) :
    (confirmTrade c .buy a s).2.balance = s.balance - a * c.current_price := by
  by_cases ha : a ≤ 0
  · rw [confirmTrade_invalid c .buy a s ha] at h
    simp at h
  · by_cases hb : s.balance < a * c.current_price
    · rw [confirmTrade_buy_insufficient c a s ha hb] at h
      simp at h
    · rw [confirmTrade_buy_success c a s ha hb]

theorem confirmTrade_balance_sell (c : Coin) (a : ℚ) (s : StateApp)
    (h : (confirmTrade c .sell a s).1 = .success) :
    (confirmTrade c .sell a s).2.balance = s.balance + a * c.current_price := by
  by_cases ha : a ≤ 0
  · rw [confirmTrade_invalid c .sell a s ha] at h
    simp at h
  · cases hl : lookupKey c.id s.holdings with
    | none =>
        rw [confirmTrade_sell_missing c a s ha hl] at h
        simp at h
    | some hld =>
        by_cases hq : hld.amount < a
        · rw [confirmTrade_sell_short c a s hld ha hl hq] at h
          simp at h
        · rw [confirmTrade_sell_success c a s hld ha hl hq]

/-- C7: round-trip restoration.  For every state and every positive quantity
`q` and positive unit price, a successful buy of `q` immediately followed by a
successful sell of `q` at the same price returns the cash balance exactly to
its value before the buy (exact rational arithmetic stands in for the spec's
"modulo floating-point tolerance"), in both implementations. -/
theorem round_trip_restores_cash (c : Coin) (q : ℚ) (s : State001) (s2 : StateApp)
    (hq : 0 < q) (hp : 0 < c.current_price)
    (hbuy : (executeTrade c .buy q s).1 = .success)
    (hsell : (executeTrade c .sell q (executeTrade c .buy q s).2).1 = .success)
    (hbuy2 : (confirmTrade c .buy q s2).1 = .success)
    (hsell2 : (confirmTrade c .sell q (confirmTrade c .buy q s2).2).1 = .success) :
    (executeTrade c .sell q (executeTrade c .buy q s).2).2.balance = s.balance ∧
    (confirmTrade c .sell q (confirmTrade c .buy q s2).2).2.balance = s2.balance := by
  constructor
  · rw [executeTrade_balance_sell c q _ hsell, executeTrade_balance_buy c q s hbuy]
    ring
  · rw [confirmTrade_balance_sell c q _ hsell2, confirmTrade_balance_buy c q s2 hbuy2]
    ring

/-- Witness for C7: buying then selling 1 unit at price 100 from the two
initial states restores the balances 10000 and 100000 exactly. -/
theorem round_trip_restores_cash_witness :
    (executeTrade (coinAt 100) .sell 1 (executeTrade (coinAt 100) .buy 1 init001).2).2.balance
        = 10000 ∧
    (confirmTrade (coinAt 100) .sell 1 (confirmTrade (coinAt 100) .buy 1 initApp).2).2.balance
        = 100000 := by
  have h := round_trip_restores_cash (coinAt 100) 1 init001 initApp
    (by norm_num) (by norm_num [coinAt])
    (by norm_num [executeTrade, coinAt, init001, lookupKey, setKey])
    (by norm_num [executeTrade, coinAt, init001, lookupKey, setKey, eraseKey])
    (by norm_num [confirmTrade, coinAt, initApp, lookupKey, setKey])
    (by norm_num [confirmTrade, coinAt, initApp, lookupKey, setKey, eraseKey])
  simpa [init001, initApp] using h

/-! ## C6: full liquidation removes the holding -/

/-- C6: for every state whose holdings map (with unique keys, the JS-object
representation invariant) contains a holding for the asset, a sell of exactly
the holding's entire quantity succeeds and deletes the asset's entry from the
holdings mapping entirely, in both implementations: no zero-quantity entry
persists. -/
theorem full_liquidation_removes_holding (c : Coin) (s : State001) (s2 : StateApp)
    (h : Holding001) (h2 : HoldingApp)
    (hw : KeysNodup s.holdings) (hw2 : KeysNodup s2.holdings)
    (hl : lookupKey c.id s.holdings = some h) (hl2 : lookupKey c.id s2.holdings = some h2)
    (hpos : 0 < h.amount) (hpos2 : 0 < h2.amount) :
    (executeTrade c .sell h.amount s).1 = .success ∧
    lookupKey c.id (executeTrade c .sell h.amount s).2.holdings = none ∧
    (confirmTrade c .sell h2.amount s2).1 = .success ∧
    lookupKey c.id (confirmTrade c .sell h2.amount s2).2.holdings = none := by
  have ha : ¬ h.amount ≤ 0 := not_le.mpr hpos
  have hq : ¬ h.amount < h.amount := lt_irrefl _
  have ha2 : ¬ h2.amount ≤ 0 := not_le.mpr hpos2
  have hq2 : ¬ h2.amount < h2.amount := lt_irrefl _
  rw [executeTrade_sell_success c h.amount s h ha hl hq,
    confirmTrade_sell_success c h2.amount s2 h2 ha2 hl2 hq2]
  refine ⟨rfl, ?_, rfl, ?_⟩
  · simp [sub_self, lookupKey_eraseKey_self hw]
  · simp [sub_self, lookupKey_eraseKey_self hw2]

/-- A one-holding state of the `part_001` shape, used as concrete input. -/
def oneHolding001 : State001 := ⟨0, [("bitcoin", ⟨2, 150, "Bitcoin", "btc"⟩)], []⟩

/-- A one-holding state of the `app.js` shape, used as concrete input. -/
def oneHoldingApp : StateApp := ⟨0, [("bitcoin", ⟨2, 150⟩)], []⟩

/-- Witness for C6: liquidating a 2-unit holding removes its entry in both
implementations. -/
theorem full_liquidation_removes_holding_witness :
    (executeTrade (coinAt 100) .sell 2 oneHolding001).1 = .success ∧
    lookupKey "bitcoin" (executeTrade (coinAt 100) .sell 2 oneHolding001).2.holdings = none ∧
    (confirmTrade (coinAt 100) .sell 2 oneHoldingApp).1 = .success ∧
    lookupKey "bitcoin" (confirmTrade (coinAt 100) .sell 2 oneHoldingApp).2.holdings = none := by
  have h := full_liquidation_removes_holding (coinAt 100) oneHolding001 oneHoldingApp
    ⟨2, 150, "Bitcoin", "btc"⟩ ⟨2, 150⟩
    (by simp [KeysNodup, oneHolding001]) (by simp [KeysNodup, oneHoldingApp])
    (by norm_num [oneHolding001, lookupKey, coinAt]) (by norm_num [oneHoldingApp, lookupKey, coinAt])
    (by norm_num) (by norm_num)
  simpa using h

/-! ## C5: sell failure taxonomy (corrected) -/

/-- A state holding a single unit, for the undersized-holding sell. -/
def oneUnit001 : State001 := ⟨0, [("bitcoin", ⟨1, 100, "Bitcoin", "btc"⟩)], []⟩

/-- The `app.js` analogue of `oneUnit001`. -/
def oneUnitApp : StateApp := ⟨0, [("bitcoin", ⟨1, 100⟩)], []⟩

/-- C5 counterexample: neither implementation distinguishes the
missing-holding case from the oversized-sell case — both return the single
combined holdings error (`'Insufficient holdings!'` in `part_001`,
`'Not enough holdings'` in `app.js`), so no distinct `NoSuchHolding` error
exists.  Here a sell of 1 with no holding and a sell of 2 against a 1-unit
holding produce equal outcomes. -/
theorem sell_errors_not_distinct :
    (executeTrade (coinAt 100) .sell 1 init001).1 = (executeTrade (coinAt 100) .sell 2 oneUnit001).1 ∧
    (executeTrade (coinAt 100) .sell 1 init001).1 = .failure .insufficientHoldings ∧
    (confirmTrade (coinAt 100) .sell 1 initApp).1 = (confirmTrade (coinAt 100) .sell 2 oneUnitApp).1 ∧
    (confirmTrade (coinAt 100) .sell 1 initApp).1 = .failure .insufficientHoldings := by
  norm_num [executeTrade, confirmTrade, coinAt, init001, initApp, oneUnit001, oneUnitApp,
    lookupKey]

/-- C5 amended: for every sell request with positive quantity, both
implementations fail — always with the one combined holdings error — exactly
when no holding exists for the asset or the requested quantity strictly
exceeds the held quantity; selling exactly the held quantity succeeds. -/
theorem sell_failure_taxonomy (c : Coin) (a : ℚ) (s : State001) (s2 : StateApp)
    (ha : 0 < a) :
    ((executeTrade c .sell a s).1 = .failure .insufficientHoldings ↔
      lookupKey c.id s.holdings = none ∨
        ∃ h, lookupKey c.id s.holdings = some h ∧ h.amount < a) ∧
    (∀ h, lookupKey c.id s.holdings = some h → a ≤ h.amount →
      (executeTrade c .sell a s).1 = .success) ∧
    ((confirmTrade c .sell a s2).1 = .failure .insufficientHoldings ↔
      lookupKey c.id s2.holdings = none ∨
        ∃ h, lookupKey c.id s2.holdings = some h ∧ h.amount < a) ∧
    (∀ h, lookupKey c.id s2.holdings = some h → a ≤ h.amount →
      (confirmTrade c .sell a s2).1 = .success) := by
  have han : ¬ a ≤ 0 := not_le.mpr ha
  refine ⟨?_, ?_, ?_, ?_⟩
  · cases hl : lookupKey c.id s.holdings with
    | none => rw [executeTrade_sell_missing c a s han hl]; simp
    | some h =>
        by_cases hq : h.amount < a
        · rw [executeTrade_sell_short c a s h han hl hq]
          simp [hq]
        · rw [executeTrade_sell_success c a s h han hl hq]
          simp [hq]
  · intro h hl hle
    rw [executeTrade_sell_success c a s h han hl (not_lt.mpr hle)]
  · cases hl : lookupKey c.id s2.holdings with
    | none => rw [confirmTrade_sell_missing c a s2 han hl]; simp
    | some h =>
        by_cases hq : h.amount < a
        · rw [confirmTrade_sell_short c a s2 h han hl hq]
          simp [hq]
        · rw [confirmTrade_sell_success c a s2 h han hl hq]
          simp [hq]
  · intro h hl hle
    rw [confirmTrade_sell_success c a s2 h han hl (not_lt.mpr hle)]

/-- Witness for C5 amended: a sell of 1 against empty holdings fails with the
combined holdings error, and a sell of exactly the held quantity succeeds. -/
theorem sell_failure_taxonomy_witness :
    (executeTrade (coinAt 100) .sell 1 init001).1 = .failure .insufficientHoldings ∧
    (executeTrade (coinAt 100) .sell 1 oneUnit001).1 = .success ∧
    (confirmTrade (coinAt 100) .sell 1 initApp).1 = .failure .insufficientHoldings ∧
    (confirmTrade (coinAt 100) .sell 1 oneUnitApp).1 = .success := by
  have hfail := sell_failure_taxonomy (coinAt 100) 1 init001 initApp (by norm_num)
  have hsucc := sell_failure_taxonomy (coinAt 100) 1 oneUnit001 oneUnitApp (by norm_num)
  refine ⟨hfail.1.mpr (.inl (by norm_num [init001, lookupKey])), ?_,
    hfail.2.2.1.mpr (.inl (by norm_num [initApp, lookupKey])), ?_⟩
  · exact hsucc.2.1 ⟨1, 100, "Bitcoin", "btc"⟩
      (by norm_num [oneUnit001, lookupKey, coinAt]) (by norm_num)
  · exact hsucc.2.2.2 ⟨1, 100⟩
      (by norm_num [oneUnitApp, lookupKey, coinAt]) (by norm_num)

/-! ## C10: the two sell implementations are equivalent -/

/-- C10: for every holding with quantity `q` and cost basis `cb`, and every
sell of quantity `a` with `0 < a ≤ q` at any unit price, the `part_001`
update (decrement the quantity first, then subtract
`(cb / ((q - a) + a)) * a`) and the `app.js` update (compute the average
`cb / q` before decrementing, subtract `(cb / q) * a`, then decrement)
produce identical resulting quantity, cost basis, and cash change, the
deletion-at-zero cases included. -/
theorem sell_implementations_equivalent (id nm sym : String) (b q cb a p : ℚ)
    (ha : 0 < a) (haq : a ≤ q) :
    (executeTrade ⟨id, nm, sym, p⟩ .sell a ⟨b, [(id, ⟨q, cb, nm, sym⟩)], []⟩).1 = .success ∧
    (confirmTrade ⟨id, nm, sym, p⟩ .sell a ⟨b, [(id, ⟨q, cb⟩)], []⟩).1 = .success ∧
    (executeTrade ⟨id, nm, sym, p⟩ .sell a ⟨b, [(id, ⟨q, cb, nm, sym⟩)], []⟩).2.balance
        = b + a * p ∧
    (confirmTrade ⟨id, nm, sym, p⟩ .sell a ⟨b, [(id, ⟨q, cb⟩)], []⟩).2.balance = b + a * p ∧
    (lookupKey id
        (executeTrade ⟨id, nm, sym, p⟩ .sell a ⟨b, [(id, ⟨q, cb, nm, sym⟩)], []⟩).2.holdings).map
          (fun h => (h.amount, h.totalCost))
      = (lookupKey id
          (confirmTrade ⟨id, nm, sym, p⟩ .sell a ⟨b, [(id, ⟨q, cb⟩)], []⟩).2.holdings).map
            (fun h => (h.amount, h.totalCost)) := by
  have han : ¬ a ≤ 0 := not_le.mpr ha
  have hl1 : lookupKey id [(id, (⟨q, cb, nm, sym⟩ : Holding001))] = some ⟨q, cb, nm, sym⟩ := by
    simp [lookupKey]
  have hl2 : lookupKey id [(id, (⟨q, cb⟩ : HoldingApp))] = some ⟨q, cb⟩ := by
    simp [lookupKey]
  have hq1 : ¬ (⟨q, cb, nm, sym⟩ : Holding001).amount < a := not_lt.mpr haq
  have hq2 : ¬ (⟨q, cb⟩ : HoldingApp).amount < a := not_lt.mpr haq
  rw [executeTrade_sell_success _ a _ _ han hl1 hq1,
    confirmTrade_sell_success _ a _ _ han hl2 hq2]
  refine ⟨rfl, rfl, rfl, rfl, ?_⟩
  by_cases h0 : q - a = 0
  · simp [h0, eraseKey, lookupKey]
  · have hpos : ¬ q - a ≤ 0 := by
      have hnn : 0 ≤ q - a := sub_nonneg.mpr haq
      exact fun hle => h0 (le_antisymm hle hnn)
    simp [h0, hpos, setKey, lookupKey, sub_add_cancel]

/-- Witness for C10: selling 1 of a 3-unit holding with cost basis 300 at
price 50 gives balance 50 and the holding (2, 250) in both implementations. -/
theorem sell_implementations_equivalent_witness :
    (executeTrade ⟨"x", "X", "x", 50⟩ .sell 1 ⟨0, [("x", ⟨3, 300, "X", "x"⟩)], []⟩).1 = .success ∧
    (confirmTrade ⟨"x", "X", "x", 50⟩ .sell 1 ⟨0, [("x", ⟨3, 300⟩)], []⟩).1 = .success ∧
    (executeTrade ⟨"x", "X", "x", 50⟩ .sell 1 ⟨0, [("x", ⟨3, 300, "X", "x"⟩)], []⟩).2.balance
        = 0 + 1 * 50 ∧
    (confirmTrade ⟨"x", "X", "x", 50⟩ .sell 1 ⟨0, [("x", ⟨3, 300⟩)], []⟩).2.balance
        = 0 + 1 * 50 ∧
    (lookupKey "x"
        (executeTrade ⟨"x", "X", "x", 50⟩ .sell 1 ⟨0, [("x", ⟨3, 300, "X", "x"⟩)], []⟩).2.holdings).map
          (fun h => (h.amount, h.totalCost))
      = (lookupKey "x"
          (confirmTrade ⟨"x", "X", "x", 50⟩ .sell 1 ⟨0, [("x", ⟨3, 300⟩)], []⟩).2.holdings).map
            (fun h => (h.amount, h.totalCost)) :=
  sell_implementations_equivalent "x" "X" "x" 0 3 300 1 50 (by norm_num) (by norm_num)

/-! ## C9: missing-price tolerance in portfolio valuation -/

/-- The total-value accumulation of `updatePortfolioValues` (`part_001`):
starting from `portfolio.balance`, each holding whose coin is found in
`cryptoData` (`cryptoData.find(c => c.id === coinId)`) adds
`holding.amount * coin.current_price`; a holding with no matching coin is
skipped. -/
def totalValue001 (cryptoData : List Coin) (s : State001) : ℚ :=
  s.holdings.foldl (fun acc p =>
    match cryptoData.find? (fun c => c.id == p.1) with
    | some coin => acc + p.2.amount * coin.current_price
    | none => acc) s.balance

/-- The total-value accumulation of `updateUI` (`app.js`): `total` starts at
`state.portfolio.balance` and each holding whose coin is found adds
`h.amount * coin.current_price`. -/
def totalValueApp (cryptoData : List Coin) (s : StateApp) : ℚ :=
  s.holdings.foldl (fun acc p =>
    match cryptoData.find? (fun c => c.id == p.1) with
    | some coin => acc + p.2.amount * coin.current_price
    | none => acc) s.balance

/-- The sum of `amount * current_price` over exactly those holdings whose
asset has an available quote in `cryptoData`. -/
def pricedSum001 (cryptoData : List Coin) (l : List (AssetId × Holding001)) : ℚ :=
  (l.filterMap (fun p =>
    (cryptoData.find? (fun c => c.id == p.1)).map
      (fun coin => p.2.amount * coin.current_price))).sum

/-- `app.js` analogue of `pricedSum001`. -/
def pricedSumApp (cryptoData : List Coin) (l : List (AssetId × HoldingApp)) : ℚ :=
  (l.filterMap (fun p =>
    (cryptoData.find? (fun c => c.id == p.1)).map
      (fun coin => p.2.amount * coin.current_price))).sum

theorem totalValue001_foldl_aux (d : List Coin) (l : List (AssetId × Holding001)) (acc : ℚ) :
    l.foldl (fun acc p =>
      match d.find? (fun c => c.id == p.1) with
      | some coin => acc + p.2.amount * coin.current_price
      | none => acc) acc = acc + pricedSum001 d l := by
  induction l generalizing acc with
  | nil => simp [pricedSum001]
  | cons p rest ih =>
      cases hf : d.find? (fun c => c.id == p.1) with
      | none => simp [pricedSum001, hf, ih, List.filterMap_cons]
      | some coin =>
          simp [pricedSum001, hf, ih, List.filterMap_cons]
          ring

theorem totalValueApp_foldl_aux (d : List Coin) (l : List (AssetId × HoldingApp)) (acc : ℚ) :
    l.foldl (fun acc p =>
      match d.find? (fun c => c.id == p.1) with
      | some coin => acc + p.2.amount * coin.current_price
      | none => acc) acc = acc + pricedSumApp d l := by
  induction l generalizing acc with
  | nil => simp [pricedSumApp]
  | cons p rest ih =>
      cases hf : d.find? (fun c => c.id == p.1) with
      | none => simp [pricedSumApp, hf, ih, List.filterMap_cons]
      | some coin =>
          simp [pricedSumApp, hf, ih, List.filterMap_cons]
          ring

/-- C9: missing-price tolerance.  For every portfolio state and every market
list (an arbitrary, possibly incomplete, price lookup), the computed total
portfolio value equals the cash balance plus the sum of
`quantity * current_price` over exactly those holdings whose asset has an
available quote; a holding without a quote contributes zero and never makes
the computation fail, in both implementations. -/
theorem total_value_missing_price_tolerance (d : List Coin) (s : State001) (s2 : StateApp) :
    totalValue001 d s = s.balance + pricedSum001 d s.holdings ∧
    totalValueApp d s2 = s2.balance + pricedSumApp d s2.holdings :=
  ⟨totalValue001_foldl_aux d s.holdings s.balance,
   totalValueApp_foldl_aux d s2.holdings s2.balance⟩

/-! ## C8: P&L-percent divide-by-zero guard (corrected) -/

/-- JavaScript floating-point division, restricted to the case split that
matters here: dividing by zero yields a non-finite value (`Infinity` or
`NaN`), modelled as `none`; every other division is exact. -/
def jsDiv (a b : ℚ) : Option ℚ := if b = 0 then none else some (a / b)

/-- The P&L-percent computation of `displayPortfolio` (`part_001`):
`pl = currentValue - holding.totalCost` and
`plPercent = (pl / holding.totalCost) * 100`, with no guard on
`holding.totalCost`. -/
def plPercent001 (h : Holding001) (price : ℚ) : Option ℚ :=
  (jsDiv (h.amount * price - h.totalCost) h.totalCost).map (fun r => r * 100)

/-- C8 counterexample: for a holding with `costBasis = 0` the `part_001`
P&L-percent computation performs an unguarded division by zero and yields a
non-finite value, not the claimed 0. -/
theorem pnl_percent_zero_basis_not_zero :
    plPercent001 ⟨1, 0, "Example", "ex"⟩ 5 ≠ some 0 ∧
    plPercent001 ⟨1, 0, "Example", "ex"⟩ 5 = none := by
  simp [plPercent001, jsDiv]

/-- C8 amended: `displayPortfolio` computes `plPercent` by dividing by
`costBasis` unconditionally: whenever `costBasis ≠ 0` the result is
`pnlAmount / costBasis * 100`, and when `costBasis = 0` the division has no
guard and produces a non-finite value rather than 0. -/
theorem pnl_percent_unguarded (h : Holding001) (price : ℚ) :
    (h.totalCost ≠ 0 →
      plPercent001 h price = some ((h.amount * price - h.totalCost) / h.totalCost * 100)) ∧
    (h.totalCost = 0 → plPercent001 h price = none) := by
  constructor
  · intro hc
    simp [plPercent001, jsDiv, hc]
  · intro hc
    simp [plPercent001, jsDiv, hc]

/-- Witness for C8 amended: a holding of 2 units with cost basis 100 at price
75 has P&L percent 50; a zero-cost-basis holding yields the non-finite
result. -/
theorem pnl_percent_unguarded_witness :
    plPercent001 ⟨2, 100, "Example", "ex"⟩ 75 = some 50 ∧
    plPercent001 ⟨1, 0, "Example", "ex"⟩ 5 = none := by
  constructor
  · have h := (pnl_percent_unguarded ⟨2, 100, "Example", "ex"⟩ 75).1 (by norm_num)
    rw [h]
    norm_num
  · exact (pnl_percent_unguarded ⟨1, 0, "Example", "ex"⟩ 5).2 rfl

/-! ## Operation sequences -/

/-- One user trade intent: the selected coin (carrying its market price), the
trade type, and the entered amount. -/
structure Op where
  coin : Coin
  type : TradeType
  amount : ℚ
  deriving Repr, DecidableEq

/-- Run a sequence of trades through `executeTrade`, keeping the state of
each step (failed trades leave the state unchanged). -/
def runOps001 (ops : List Op) (s : State001) : State001 :=
  ops.foldl (fun s op => (executeTrade op.coin op.type op.amount s).2) s

/-- Run a sequence of trades through `confirmTrade`. -/
def runOpsApp (ops : List Op) (s : StateApp) : StateApp :=
  ops.foldl (fun s op => (confirmTrade op.coin op.type op.amount s).2) s

/-! ## C3: non-negativity invariant (corrected) -/

/-- `cashBalance ≥ 0` and every holding's quantity `≥ 0`. -/
def Nonneg001 (s : State001) : Prop :=
  0 ≤ s.balance ∧ ∀ p ∈ s.holdings, 0 ≤ (Prod.snd p).amount

/-- `app.js` analogue of `Nonneg001`. -/
def NonnegApp (s : StateApp) : Prop :=
  0 ≤ s.balance ∧ ∀ p ∈ s.holdings, 0 ≤ (Prod.snd p).amount

theorem executeTrade_preserves_nonneg (c : Coin) (t : TradeType) (a : ℚ) (s : State001)
    (hp : 0 ≤ c.current_price) (hs : Nonneg001 s) :
    Nonneg001 (executeTrade c t a s).2 := by
  by_cases ha : a ≤ 0
  · rw [executeTrade_invalid c t a s ha]
    exact hs
  · have ha' : 0 < a := not_le.mp ha
    cases t with
    | buy =>
        by_cases hb : s.balance < a * c.current_price
        · rw [executeTrade_buy_insufficient c a s ha hb]
          exact hs
        · rw [executeTrade_buy_success c a s ha hb]
          refine ⟨by simpa using sub_nonneg.mpr (not_lt.mp hb), ?_⟩
          intro pr hpr
          rcases mem_setKey hpr with h | h
          · have h0nn : 0 ≤ ((lookupKey c.id s.holdings).getD ⟨0, 0, c.name, c.symbol⟩).amount := by
              cases hl : lookupKey c.id s.holdings with
              | none => simp
              | some hd => simpa using hs.2 (c.id, hd) (lookupKey_mem hl)
            rw [h]
            exact add_nonneg h0nn ha'.le
          · exact hs.2 pr h
    | sell =>
        cases hl : lookupKey c.id s.holdings with
        | none =>
            rw [executeTrade_sell_missing c a s ha hl]
            exact hs
        | some hld =>
            by_cases hq : hld.amount < a
            · rw [executeTrade_sell_short c a s hld ha hl hq]
              exact hs
            · rw [executeTrade_sell_success c a s hld ha hl hq]
              refine ⟨add_nonneg hs.1 (mul_nonneg ha'.le hp), ?_⟩
              intro pr hpr
              by_cases h0 : hld.amount - a = 0
              · rw [if_pos h0] at hpr
                exact hs.2 pr (mem_eraseKey hpr)
              · rw [if_neg h0] at hpr
                rcases mem_setKey hpr with h | h
                · rw [h]
                  exact sub_nonneg.mpr (not_lt.mp hq)
                · exact hs.2 pr h

theorem confirmTrade_preserves_nonneg (c : Coin) (t : TradeType) (a : ℚ) (s : StateApp)
    (hp : 0 ≤ c.current_price) (hs : NonnegApp s) :
    NonnegApp (confirmTrade c t a s).2 := by
  by_cases ha : a ≤ 0
  · rw [confirmTrade_invalid c t a s ha]
    exact hs
  · have ha' : 0 < a := not_le.mp ha
    cases t with
    | buy =>
        by_cases hb : s.balance < a * c.current_price
        · rw [confirmTrade_buy_insufficient c a s ha hb]
          exact hs
        · rw [confirmTrade_buy_success c a s ha hb]
          refine ⟨by simpa using sub_nonneg.mpr (not_lt.mp hb), ?_⟩
          intro pr hpr
          rcases mem_setKey hpr with h | h
          · have h0nn : 0 ≤ ((lookupKey c.id s.holdings).getD ⟨0, 0⟩).amount := by
              cases hl : lookupKey c.id s.holdings with
              | none => simp
              | some hd => simpa using hs.2 (c.id, hd) (lookupKey_mem hl)
            rw [h]
            exact add_nonneg h0nn ha'.le
          · exact hs.2 pr h
    | sell =>
        cases hl : lookupKey c.id s.holdings with
        | none =>
            rw [confirmTrade_sell_missing c a s ha hl]
            exact hs
        | some hld =>
            by_cases hq : hld.amount < a
            · rw [confirmTrade_sell_short c a s hld ha hl hq]
              exact hs
            · rw [confirmTrade_sell_success c a s hld ha hl hq]
              refine ⟨add_nonneg hs.1 (mul_nonneg ha'.le hp), ?_⟩
              intro pr hpr
              by_cases h0 : hld.amount - a ≤ 0
              · rw [if_pos h0] at hpr
                exact hs.2 pr (mem_eraseKey hpr)
              · rw [if_neg h0] at hpr
                rcases mem_setKey hpr with h | h
                · rw [h]
                  exact sub_nonneg.mpr (not_lt.mp hq)
                · exact hs.2 pr h

theorem runOps001_nonneg (ops : List Op) (s : State001)
    (hp : ∀ op ∈ ops, 0 ≤ op.coin.current_price) (hs : Nonneg001 s) :
    Nonneg001 (runOps001 ops s) := by
  induction ops generalizing s with
  | nil => exact hs
  | cons op rest ih =>
      simp only [runOps001, List.foldl_cons]
      exact ih _ (fun o ho => hp o (.tail _ ho))
        (executeTrade_preserves_nonneg _ _ _ _ (hp op (.head _)) hs)

theorem runOpsApp_nonneg (ops : List Op) (s : StateApp)
    (hp : ∀ op ∈ ops, 0 ≤ op.coin.current_price) (hs : NonnegApp s) :
    NonnegApp (runOpsApp ops s) := by
  induction ops generalizing s with
  | nil => exact hs
  | cons op rest ih =>
      simp only [runOpsApp, List.foldl_cons]
      exact ih _ (fun o ho => hp o (.tail _ ho))
        (confirmTrade_preserves_nonneg _ _ _ _ (hp op (.head _)) hs)

/-- The two-operation sequence refuting the unrestricted C3: buy one unit at
the full starting balance, then sell it at a negative quoted price. -/
def negPriceOps (startPrice : ℚ) : List Op :=
  [⟨coinAt startPrice, .buy, 1⟩, ⟨coinAt (-5), .sell, 1⟩]

/-- C3 counterexample: the code never validates the quoted unit price, so a
sell executed at a negative `current_price` drives the cash balance below
zero, starting from the initial states of both implementations. -/
theorem nonneg_invariant_counterexample :
    (runOps001 (negPriceOps 10000) init001).balance = -5 ∧
    ¬ Nonneg001 (runOps001 (negPriceOps 10000) init001) ∧
    (runOpsApp (negPriceOps 100000) initApp).balance = -5 ∧
    ¬ NonnegApp (runOpsApp (negPriceOps 100000) initApp) := by
  have h1 : (runOps001 (negPriceOps 10000) init001).balance = -5 := by
    norm_num [runOps001, negPriceOps, executeTrade, coinAt, init001, lookupKey, setKey, eraseKey]
  have h2 : (runOpsApp (negPriceOps 100000) initApp).balance = -5 := by
    norm_num [runOpsApp, negPriceOps, confirmTrade, coinAt, initApp, lookupKey, setKey, eraseKey]
  refine ⟨h1, fun hn => ?_, h2, fun hn => ?_⟩
  · exact absurd (h1 ▸ hn.1) (by norm_num)
  · exact absurd (h2 ▸ hn.1) (by norm_num)

/-- C3 amended: for every sequence of buy and sell operations whose quoted
unit prices are non-negative, starting from an initial state with
non-negative cash and empty holdings, the cash balance stays `≥ 0` and every
holding's quantity stays `≥ 0`, in both implementations.  The operation list
is universally quantified, so the invariant holds after every prefix, i.e.
after every single operation. -/
theorem nonneg_invariant (ops : List Op) (b b2 : ℚ) (hb : 0 ≤ b) (hb2 : 0 ≤ b2)
    (hp : ∀ op ∈ ops, 0 ≤ op.coin.current_price) :
    Nonneg001 (runOps001 ops ⟨b, [], []⟩) ∧ NonnegApp (runOpsApp ops ⟨b2, [], []⟩) :=
  ⟨runOps001_nonneg ops _ hp ⟨hb, by simp⟩, runOpsApp_nonneg ops _ hp ⟨hb2, by simp⟩⟩

/-- Witness for C3 amended: a one-buy sequence at price 100 from the two
initial balances keeps both states non-negative. -/
theorem nonneg_invariant_witness :
    Nonneg001 (runOps001 [⟨coinAt 100, .buy, 1⟩] ⟨10000, [], []⟩) ∧
    NonnegApp (runOpsApp [⟨coinAt 100, .buy, 1⟩] ⟨100000, [], []⟩) := by
  refine nonneg_invariant [⟨coinAt 100, .buy, 1⟩] 10000 100000 (by norm_num) (by norm_num) ?_
  intro op hop
  simp only [List.mem_singleton] at hop
  subst hop
  norm_num [coinAt]

/-! ## C4: conservation of cash plus cost basis (corrected) -/

/-- `cashBalance + Σ holding.costBasis` over all holdings (`part_001`). -/
def cashPlusBasis001 (s : State001) : ℚ :=
  s.balance + sumBy (fun h : Holding001 => h.totalCost) s.holdings

/-- `cashBalance + Σ holding.costBasis` over all holdings (`app.js`). -/
def cashPlusBasisApp (s : StateApp) : ℚ :=
  s.balance + sumBy (fun h : HoldingApp => h.totalCost) s.holdings

/-- The two-operation sequence refuting C4: buy 1 unit at 100, then sell it
at 200.  Both trades succeed, yet the realized gain of 100 moves
`cashBalance + Σ costBasis`. -/
def roundTripGainOps : List Op := [⟨coinAt 100, .buy, 1⟩, ⟨coinAt 200, .sell, 1⟩]

/-- C4 counterexample: after the successful sequence buy 1 @ 100, sell 1 @
200, the quantity `cashBalance + Σ costBasis` has grown by the realized
profit of 100 in both implementations (10000 → 10100 and 100000 → 100100),
so it is not invariant across sequences of successful trades. -/
theorem conservation_counterexample :
    (executeTrade (coinAt 100) .buy 1 init001).1 = .success ∧
    (executeTrade (coinAt 200) .sell 1 (executeTrade (coinAt 100) .buy 1 init001).2).1
      = .success ∧
    cashPlusBasis001 init001 = 10000 ∧
    cashPlusBasis001 (runOps001 roundTripGainOps init001) = 10100 ∧
    (confirmTrade (coinAt 100) .buy 1 initApp).1 = .success ∧
    (confirmTrade (coinAt 200) .sell 1 (confirmTrade (coinAt 100) .buy 1 initApp).2).1
      = .success ∧
    cashPlusBasisApp initApp = 100000 ∧
    cashPlusBasisApp (runOpsApp roundTripGainOps initApp) = 100100 := by
  norm_num [runOps001, runOpsApp, roundTripGainOps, executeTrade, confirmTrade, coinAt,
    init001, initApp, lookupKey, setKey, eraseKey, cashPlusBasis001, cashPlusBasisApp, sumBy]

/-- C4 amended: through every successful buy, `cashBalance + Σ costBasis` is
unchanged; through every successful sell of quantity `a` against a holding
`h`, it changes by exactly the realized P&L
`a * (unitPrice - h.costBasis / h.quantity)`, in both implementations.  The
sum is therefore invariant precisely across sequences whose sells execute at
their holding's average cost (e.g. a buy-then-sell round trip at one price),
not across arbitrary successful sequences. -/
theorem conservation_amended (c : Coin) (a : ℚ) (s : State001) (s2 : StateApp)
    (h : Holding001) (h2 : HoldingApp) :
    ((executeTrade c .buy a s).1 = .success →
      cashPlusBasis001 (executeTrade c .buy a s).2 = cashPlusBasis001 s) ∧
    (lookupKey c.id s.holdings = some h → (executeTrade c .sell a s).1 = .success →
      cashPlusBasis001 (executeTrade c .sell a s).2
        = cashPlusBasis001 s + a * (c.current_price - h.totalCost / h.amount)) ∧
    ((confirmTrade c .buy a s2).1 = .success →
      cashPlusBasisApp (confirmTrade c .buy a s2).2 = cashPlusBasisApp s2) ∧
    (lookupKey c.id s2.holdings = some h2 → (confirmTrade c .sell a s2).1 = .success →
      cashPlusBasisApp (confirmTrade c .sell a s2).2
        = cashPlusBasisApp s2 + a * (c.current_price - h2.totalCost / h2.amount)) := by
  refine ⟨?_, ?_, ?_, ?_⟩
  · intro hsucc
    by_cases ha : a ≤ 0
    · rw [executeTrade_invalid c .buy a s ha] at hsucc
      simp at hsucc
    · by_cases hb : s.balance < a * c.current_price
      · rw [executeTrade_buy_insufficient c a s ha hb] at hsucc
        simp at hsucc
      · rw [executeTrade_buy_success c a s ha hb]
        cases hl : lookupKey c.id s.holdings with
        | none =>
            have hsum := sumBy_setKey_none (fun hh : Holding001 => hh.totalCost)
              ⟨((lookupKey c.id s.holdings).getD ⟨0, 0, c.name, c.symbol⟩).amount + a,
               ((lookupKey c.id s.holdings).getD ⟨0, 0, c.name, c.symbol⟩).totalCost
                 + a * c.current_price,
               ((lookupKey c.id s.holdings).getD ⟨0, 0, c.name, c.symbol⟩).coin,
               ((lookupKey c.id s.holdings).getD ⟨0, 0, c.name, c.symbol⟩).symbol⟩ hl
            rw [hl] at hsum
            simp only [cashPlusBasis001]
            rw [hsum]
            simp
        | some hd =>
            have hsum := sumBy_setKey_some (fun hh : Holding001 => hh.totalCost)
              ⟨((lookupKey c.id s.holdings).getD ⟨0, 0, c.name, c.symbol⟩).amount + a,
               ((lookupKey c.id s.holdings).getD ⟨0, 0, c.name, c.symbol⟩).totalCost
                 + a * c.current_price,
               ((lookupKey c.id s.holdings).getD ⟨0, 0, c.name, c.symbol⟩).coin,
               ((lookupKey c.id s.holdings).getD ⟨0, 0, c.name, c.symbol⟩).symbol⟩ hl
            rw [hl] at hsum
            simp only [cashPlusBasis001]
            rw [hsum]
            simp
            ring
  · intro hl hsucc
    by_cases ha : a ≤ 0
    · rw [executeTrade_invalid c .sell a s ha] at hsucc
      simp at hsucc
    · by_cases hq : h.amount < a
      · rw [executeTrade_sell_short c a s h ha hl hq] at hsucc
        simp at hsucc
      · have ha' : 0 < a := not_le.mp ha
        have hqpos : 0 < h.amount := lt_of_lt_of_le ha' (not_lt.mp hq)
        have hq0 : h.amount ≠ 0 := ne_of_gt hqpos
        rw [executeTrade_sell_success c a s h ha hl hq]
        by_cases h0 : h.amount - a = 0
        · have haq : h.amount = a := by
            have := sub_eq_zero.mp h0
            linarith
          have ha0 : a ≠ 0 := ne_of_gt ha'
          have hsum := sumBy_eraseKey_some (fun hh : Holding001 => hh.totalCost) hl
          have hrw : a * (c.current_price - h.totalCost / a)
              = a * c.current_price - h.totalCost := by
            field_simp
            ring
          simp only [cashPlusBasis001, if_pos h0, hsum]
          rw [haq, hrw]
          ring
        · have hsum := sumBy_setKey_some (fun hh : Holding001 => hh.totalCost)
            ⟨h.amount - a, h.totalCost - (h.totalCost / ((h.amount - a) + a)) * a,
             h.coin, h.symbol⟩ hl
          simp only [cashPlusBasis001, if_neg h0, hsum]
          simp [sub_add_cancel]
          ring
  · intro hsucc
    by_cases ha : a ≤ 0
    · rw [confirmTrade_invalid c .buy a s2 ha] at hsucc
      simp at hsucc
    · by_cases hb : s2.balance < a * c.current_price
      · rw [confirmTrade_buy_insufficient c a s2 ha hb] at hsucc
        simp at hsucc
      · rw [confirmTrade_buy_success c a s2 ha hb]
        cases hl : lookupKey c.id s2.holdings with
        | none =>
            have hsum := sumBy_setKey_none (fun hh : HoldingApp => hh.totalCost)
              ⟨((lookupKey c.id s2.holdings).getD ⟨0, 0⟩).amount + a,
               ((lookupKey c.id s2.holdings).getD ⟨0, 0⟩).totalCost + a * c.current_price⟩ hl
            rw [hl] at hsum
            simp only [cashPlusBasisApp]
            rw [hsum]
            simp
        | some hd =>
            have hsum := sumBy_setKey_some (fun hh : HoldingApp => hh.totalCost)
              ⟨((lookupKey c.id s2.holdings).getD ⟨0, 0⟩).amount + a,
               ((lookupKey c.id s2.holdings).getD ⟨0, 0⟩).totalCost + a * c.current_price⟩ hl
            rw [hl] at hsum
            simp only [cashPlusBasisApp]
            rw [hsum]
            simp
            ring
  · intro hl hsucc
    by_cases ha : a ≤ 0
    · rw [confirmTrade_invalid c .sell a s2 ha] at hsucc
      simp at hsucc
    · by_cases hq : h2.amount < a
      · rw [confirmTrade_sell_short c a s2 h2 ha hl hq] at hsucc
        simp at hsucc
      · have ha' : 0 < a := not_le.mp ha
        have hqpos : 0 < h2.amount := lt_of_lt_of_le ha' (not_lt.mp hq)
        have hq0 : h2.amount ≠ 0 := ne_of_gt hqpos
        rw [confirmTrade_sell_success c a s2 h2 ha hl hq]
        by_cases h0 : h2.amount - a ≤ 0
        · have haq : h2.amount = a := by
            have hnn : 0 ≤ h2.amount - a := sub_nonneg.mpr (not_lt.mp hq)
            have : h2.amount - a = 0 := le_antisymm h0 hnn
            linarith [sub_eq_zero.mp this]
          have ha0 : a ≠ 0 := ne_of_gt ha'
          have hsum := sumBy_eraseKey_some (fun hh : HoldingApp => hh.totalCost) hl
          have hrw : a * (c.current_price - h2.totalCost / a)
              = a * c.current_price - h2.totalCost := by
            field_simp
            ring
          simp only [cashPlusBasisApp, if_pos h0, hsum]
          rw [haq, hrw]
          ring
        · have hsum := sumBy_setKey_some (fun hh : HoldingApp => hh.totalCost)
            ⟨h2.amount - a, h2.totalCost - (h2.totalCost / h2.amount) * a⟩ hl
          simp only [cashPlusBasisApp, if_neg h0, hsum]
          simp
          ring

/-- Witness for C4 amended: a buy of 1 @ 100 from the initial states leaves
`cashBalance + Σ costBasis` unchanged, and a sell of the 1-unit holding
(cost basis 100) at 200 raises it by exactly `1 * (200 - 100 / 1)`. -/
theorem conservation_amended_witness :
    cashPlusBasis001 (executeTrade (coinAt 100) .buy 1 init001).2 = cashPlusBasis001 init001 ∧
    cashPlusBasis001 (executeTrade (coinAt 200) .sell 1 oneUnit001).2
      = cashPlusBasis001 oneUnit001
        + 1 * ((coinAt 200).current_price
          - (Holding001.mk 1 100 "Bitcoin" "btc").totalCost
            / (Holding001.mk 1 100 "Bitcoin" "btc").amount) ∧
    cashPlusBasisApp (confirmTrade (coinAt 100) .buy 1 initApp).2 = cashPlusBasisApp initApp ∧
    cashPlusBasisApp (confirmTrade (coinAt 200) .sell 1 oneUnitApp).2
      = cashPlusBasisApp oneUnitApp
        + 1 * ((coinAt 200).current_price
          - (HoldingApp.mk 1 100).totalCost / (HoldingApp.mk 1 100).amount) := by
  have hbuy := conservation_amended (coinAt 100) 1 init001 initApp ⟨1, 100, "Bitcoin", "btc"⟩
    ⟨1, 100⟩
  have hsell := conservation_amended (coinAt 200) 1 oneUnit001 oneUnitApp
    ⟨1, 100, "Bitcoin", "btc"⟩ ⟨1, 100⟩
  refine ⟨hbuy.1 ?_, hsell.2.1 ?_ ?_, hbuy.2.2.1 ?_, hsell.2.2.2 ?_ ?_⟩
  · norm_num [executeTrade, coinAt, init001]
  · norm_num [oneUnit001, lookupKey, coinAt]
  · norm_num [executeTrade, oneUnit001, lookupKey, coinAt]
  · norm_num [confirmTrade, coinAt, initApp]
  · norm_num [oneUnitApp, lookupKey, coinAt]
  · norm_num [confirmTrade, oneUnitApp, lookupKey, coinAt]

end CryptoApp
